import Mathlib

/-!
Shallow embedding of the order-book reconstruction core of
`src/src/orderbook.py` (class `BybitOrderBook`).

Python `float` values are modelled as exact rationals (`ℚ`); the feed's
raw decimal text is parsed by `pyFloat?`, a model of Python's `float(...)`
on decimal literals that returns `none` where `float` raises `ValueError`.
An order book is the pair of level lists held in `self.order_book`; the
configured depth (`self.depth`) is threaded as an explicit argument.
-/

namespace OB

/-- One price level: `[price, quantity]` as stored in the Python lists. -/
abbrev Level : Type := ℚ × ℚ

/-- The numeric value of a decimal digit character, if it is one. -/
def digitVal? (c : Char) : Option ℕ :=
  if c.isDigit then some (c.toNat - 48) else none

/-- Split a leading run of decimal digits off a character list. -/
def takeDigits : List Char → List ℕ × List Char
  | [] => ([], [])
  | c :: cs =>
    match digitVal? c with
    | some d =>
      let r := takeDigits cs
      (d :: r.1, r.2)
    | none => ([], c :: cs)

/-- Value of a digit string read most-significant first. -/
def digitsToNat (ds : List ℕ) : ℕ :=
  ds.foldl (fun a d => 10 * a + d) 0

/-- Consume an optional leading sign; returns whether the value is negated. -/
def takeSign : List Char → Bool × List Char
  | '-' :: cs => (true, cs)
  | '+' :: cs => (false, cs)
  | cs => (false, cs)

/-- Combine sign, integer digits, fraction digits and a signed decimal
exponent into the exact rational `±ip.fp × 10^(±ed)`. -/
def decimalValue (neg : Bool) (ip fp : List ℕ) (eneg : Bool) (ed : ℕ) : ℚ :=
  let mantNum : ℤ := (digitsToNat ip * 10 ^ fp.length + digitsToNat fp : ℕ)
  let num : ℤ := if neg then -mantNum else mantNum
  if eneg then mkRat num (10 ^ (fp.length + ed)) else mkRat (num * 10 ^ ed) (10 ^ fp.length)

/-- Strip leading and trailing whitespace, as `float` tolerates around the
number. -/
def stripWS (cs : List Char) : List Char :=
  ((cs.dropWhile Char.isWhitespace).reverse.dropWhile Char.isWhitespace).reverse

/-- Model of Python `float(s)` on decimal text: optional sign, digits with an
optional fractional part, optional exponent; surrounding whitespace stripped.
Returns `none` where `float` raises `ValueError` (no digits, trailing junk). -/
def pyFloat? (s : String) : Option ℚ :=
  let cs0 := stripWS s.data
  let sr := takeSign cs0
  let ir := takeDigits sr.2
  let fr : List ℕ × List Char :=
    match ir.2 with
    | '.' :: cs2 => takeDigits cs2
    | cs2 => ([], cs2)
  if ir.1.isEmpty ∧ fr.1.isEmpty then none
  else
    match fr.2 with
    | 'e' :: cs3 =>
      let esr := takeSign cs3
      let er := takeDigits esr.2
      if er.1.isEmpty ∨ ¬ er.2.isEmpty then none
      else some (decimalValue sr.1 ir.1 fr.1 esr.1 (digitsToNat er.1))
    | 'E' :: cs3 =>
      let esr := takeSign cs3
      let er := takeDigits esr.2
      if er.1.isEmpty ∨ ¬ er.2.isEmpty then none
      else some (decimalValue sr.1 ir.1 fr.1 esr.1 (digitsToNat er.1))
    | [] => some (decimalValue sr.1 ir.1 fr.1 false 0)
    | _ => none

/-- The mutable state `self.order_book = {"bids": [], "asks": []}`. -/
structure OrderBook where
  bids : List Level
  asks : List Level
deriving Repr, DecidableEq

/-- The freshly initialised book of `BybitOrderBook.__init__`. -/
def emptyBook : OrderBook := { bids := [], asks := [] }

/-- The `data` object of a feed message: the optional `"b"` and `"a"` keys
(each a list of `(priceText, quantityText)` pairs) plus a flag recording
whether any other key is present (Bybit sends `s`, `u`, `seq`, ...), which
matters only for the dict's truthiness in `if not data`. -/
structure MsgData where
  b : Option (List (String × String))
  a : Option (List (String × String))
  hasOtherKeys : Bool
deriving Repr, DecidableEq

/-- Python truthiness of the `data` dict: non-empty iff some key is present. -/
def MsgData.truthy (d : MsgData) : Bool :=
  d.b.isSome || d.a.isSome || d.hasOtherKeys

/-- A feed message as consumed by `handle_message`: the optional `"type"`
string and the optional `"data"` object (`none` models a missing key,
which `message.get("data", {})` turns into the falsy `{}`). -/
structure Message where
  msgType : Option String
  data : Option MsgData
deriving Repr, DecidableEq

/-- What one `handle_message` call does besides mutating state: return
normally, return early on falsy `data` (warning log), log an unknown
`type`, or raise `ValueError` out of a `float(...)` call. -/
inductive HandleOutcome
  | ok
  | emptyData
  | unknownType
  | parseError
deriving Repr, DecidableEq

/-- Parse one `(priceText, quantityText)` pair, price first, as
`[float(price), float(quantity)]` does. -/
def parseLevel? (pr : String × String) : Option Level :=
  match pyFloat? pr.1 with
  | none => none
  | some p =>
    match pyFloat? pr.2 with
    | none => none
    | some q => some (p, q)

/-- Parse a whole side list as the snapshot list comprehension does:
all-or-nothing (a `ValueError` mid-comprehension assigns nothing). -/
def parseLevels : List (String × String) → Option (List Level)
  | [] => some []
  | pr :: rest =>
    match parseLevel? pr with
    | none => none
    | some l =>
      match parseLevels rest with
      | none => none
      | some ls => some (l :: ls)

/-- The scan-and-mutate loop of `_update_side` before the re-sort: replace
or pop the first level whose price equals `price` (`break` afterwards), and
if no level matches, append a new level when `quantity > 0`. -/
def applyUpsert (levels : List Level) (price quantity : ℚ) : List Level :=
  match levels with
  | [] => if 0 < quantity then [(price, quantity)] else []
  | (p0, q0) :: rest =>
    if p0 = price then
      if quantity = 0 then rest else (price, quantity) :: rest
    else (p0, q0) :: applyUpsert rest price quantity

/-- The comparator realised by `sorted(..., key=lambda x: x[0],
reverse=desc)`: `x` may precede `y` iff `x`'s price is larger-or-equal
(bids, `desc = true`) resp. smaller-or-equal (asks). -/
def sideOrd (desc : Bool) (x y : Level) : Prop :=
  if desc then y.1 ≤ x.1 else x.1 ≤ y.1

instance (desc : Bool) : DecidableRel (sideOrd desc) :=
  match desc with
  | true => fun x y => inferInstanceAs (Decidable (y.1 ≤ x.1))
  | false => fun x y => inferInstanceAs (Decidable (x.1 ≤ y.1))

instance (desc : Bool) : IsTotal Level (sideOrd desc) :=
  match desc with
  | true => ⟨fun x y => le_total y.1 x.1⟩
  | false => ⟨fun x y => le_total x.1 y.1⟩

instance (desc : Bool) : IsTrans Level (sideOrd desc) :=
  match desc with
  | true => ⟨fun _ _ _ h1 h2 => le_trans h2 h1⟩
  | false => ⟨fun _ _ _ h1 h2 => le_trans h1 h2⟩

/-- `sorted(book_side, key=lambda x: x[0], reverse=(side == "bids"))`:
a stable sort on the price key, descending for bids, ascending for asks
(`desc` is `side == "bids"`). -/
def sortSide (desc : Bool) (levels : List Level) : List Level :=
  List.insertionSort (sideOrd desc) levels

/-- `_update_side` on one side's level list: upsert, re-sort by price in the
side's direction, truncate to the first `depth` entries. -/
def updSide (depth : ℕ) (desc : Bool) (levels : List Level) (price quantity : ℚ) :
    List Level :=
  (sortSide desc (applyUpsert levels price quantity)).take depth

/-- The per-side loop of `_update_order_book`: parse each pair (price then
quantity) and apply `_update_side`; a `ValueError` aborts the loop, keeping
the updates already applied. Returns the resulting list and whether the
whole loop completed without raising. -/
def applyDeltaPairs (depth : ℕ) (desc : Bool) :
    List (String × String) → List Level → List Level × Bool
  | [], levels => (levels, true)
  | (ps, qs) :: rest, levels =>
    match pyFloat? ps with
    | none => (levels, false)
    | some p =>
      match pyFloat? qs with
      | none => (levels, false)
      | some q => applyDeltaPairs depth desc rest (updSide depth desc levels p q)

/-- `_update_order_book(data.get("b", []), data.get("a", []))`: the bid loop
runs first; a `ValueError` in it skips the ask loop entirely. -/
def applyDelta (depth : ℕ) (d : MsgData) (book : OrderBook) :
    OrderBook × HandleOutcome :=
  let br := applyDeltaPairs depth true (d.b.getD []) book.bids
  if br.2 then
    let ar := applyDeltaPairs depth false (d.a.getD []) book.asks
    ({ bids := br.1, asks := ar.1 }, if ar.2 then .ok else .parseError)
  else ({ book with bids := br.1 }, .parseError)

/-- The snapshot branch of `handle_message`: `order_book["bids"]` is assigned
the fully parsed `"b"` list, then `order_book["asks"]` the parsed `"a"`
list; a `ValueError` in a comprehension leaves that assignment (and any
later one) unperformed. -/
def applySnapshot (d : MsgData) (book : OrderBook) : OrderBook × HandleOutcome :=
  match parseLevels (d.b.getD []) with
  | none => (book, .parseError)
  | some newBids =>
    match parseLevels (d.a.getD []) with
    | none => ({ book with bids := newBids }, .parseError)
    | some newAsks => ({ bids := newBids, asks := newAsks }, .ok)

/-- `BybitOrderBook.handle_message`: early return on falsy `data`, then
dispatch on `message.get("type")`. -/
def handle_message (depth : ℕ) (msg : Message) (book : OrderBook) :
    OrderBook × HandleOutcome :=
  match msg.data with
  | none => (book, .emptyData)
  | some d =>
    if d.truthy then
      if msg.msgType = some "snapshot" then applySnapshot d book
      else if msg.msgType = some "delta" then applyDelta depth d book
      else (book, .unknownType)
    else (book, .emptyData)

/-- State after applying a sequence of messages in order. -/
def applyAll (depth : ℕ) (msgs : List Message) (book : OrderBook) : OrderBook :=
  msgs.foldl (fun b m => (handle_message depth m b).1) book

/-- `get_order_book`: returns an independent copy of both sides (the
DataFrame construction copies the lists' contents). -/
def get_order_book (book : OrderBook) : List Level × List Level :=
  (book.bids, book.asks)

/-! ### Lock model

`self.lock` is a non-reentrant `threading.Lock`. `handle_message` wraps its
dispatch in `with self.lock`, and on the delta path the dispatched call
`_update_order_book` opens its own `with self.lock` while the outer one is
still held. We record the sequence of lock operations one call attempts,
in program order, and check it against non-reentrant semantics for the
single calling thread. -/

/-- An attempted operation on `self.lock`. -/
inductive LockEvent
  | acq
  | rel
deriving Repr, DecidableEq

/-- The operations on `self.lock` that one `handle_message` call attempts,
in program order: nothing before the falsy-`data` early return; the outer
`with self.lock` around the dispatch; and, nested inside it on the delta
path, the `with self.lock` of `_update_order_book`. -/
def handleMessageLockTrace (msg : Message) : List LockEvent :=
  match msg.data with
  | none => []
  | some d =>
    if d.truthy then
      if msg.msgType = some "snapshot" then [.acq, .rel]
      else if msg.msgType = some "delta" then [.acq, .acq, .rel, .rel]
      else [.acq, .rel]
    else []

/-- Run a thread's attempted operations against a single non-reentrant
lock it alone uses, given whether it currently holds the lock: acquiring
while already holding blocks the thread forever. -/
def deadlocksFrom : List LockEvent → Bool → Bool
  | [], _ => false
  | .acq :: rest, held => if held then true else deadlocksFrom rest true
  | .rel :: rest, _ => deadlocksFrom rest false

/-- A call self-deadlocks when its lock-operation sequence tries to
re-acquire the non-reentrant lock it already holds. -/
def selfDeadlocks (t : List LockEvent) : Bool :=
  deadlocksFrom t false

/-! ### Invariants and message well-formedness -/

/-- Strict price ordering between levels in a side's direction: strictly
descending prices for bids (`desc = true`), strictly ascending for asks. -/
def strictOrd (desc : Bool) (x y : Level) : Prop :=
  if desc then y.1 < x.1 else x.1 < y.1

instance (desc : Bool) : DecidableRel (strictOrd desc) :=
  match desc with
  | true => fun x y => inferInstanceAs (Decidable (y.1 < x.1))
  | false => fun x y => inferInstanceAs (Decidable (x.1 < y.1))

/-- A side is strictly sorted in its direction (hence free of duplicate
prices) and holds at most `depth` levels. -/
def sideInv (depth : ℕ) (desc : Bool) (levels : List Level) : Prop :=
  levels.Pairwise (strictOrd desc) ∧ levels.length ≤ depth

instance (depth : ℕ) (desc : Bool) (levels : List Level) :
    Decidable (sideInv depth desc levels) :=
  inferInstanceAs (Decidable (_ ∧ _))

/-- Both sides of the book satisfy their side invariant. -/
def bookInv (depth : ℕ) (book : OrderBook) : Prop :=
  sideInv depth true book.bids ∧ sideInv depth false book.asks

instance (depth : ℕ) (book : OrderBook) : Decidable (bookInv depth book) :=
  inferInstanceAs (Decidable (_ ∧ _))

/-- Prices within a list of levels are pairwise distinct. -/
def keysNodup (levels : List Level) : Prop :=
  levels.Pairwise (fun x y => x.1 ≠ y.1)

/-- Every stored quantity is strictly positive. -/
def allPos (levels : List Level) : Prop :=
  ∀ x ∈ levels, 0 < x.2

/-- Both sides store strictly positive quantities only. -/
def bookPos (book : OrderBook) : Prop :=
  allPos book.bids ∧ allPos book.asks

/-- Lift a predicate to `Option`, holding vacuously at `none`. -/
def optionProp {α : Type} (P : α → Prop) : Option α → Prop
  | none => True
  | some x => P x

instance {α : Type} (P : α → Prop) [DecidablePred P] (o : Option α) :
    Decidable (optionProp P o) :=
  match o with
  | none => isTrue trivial
  | some x => inferInstanceAs (Decidable (P x))

instance (levels : List Level) : Decidable (allPos levels) :=
  inferInstanceAs (Decidable (∀ x ∈ levels, 0 < x.2))

instance (book : OrderBook) : Decidable (bookPos book) :=
  inferInstanceAs (Decidable (_ ∧ _))

/-- A message whose snapshot payload (if it is a snapshot and its sides
parse) is already strictly sorted in each side's direction, duplicate-free
and no longer than `depth` — the well-formedness the Bybit feed guarantees
and the snapshot branch silently relies on, since it neither sorts nor
truncates. -/
def goodSnapshot (depth : ℕ) (m : Message) : Prop :=
  m.msgType = some "snapshot" →
    optionProp (fun d =>
      optionProp (sideInv depth true) (parseLevels (d.b.getD [])) ∧
      optionProp (sideInv depth false) (parseLevels (d.a.getD []))) m.data

/-- A message whose parsed quantities are positive in snapshot payloads and
non-negative in delta payloads — again what the feed guarantees and the
code silently relies on (a snapshot stores quantities unfiltered, and a
delta replace stores any non-zero quantity, including negative ones). -/
def posMsg (m : Message) : Prop :=
  (m.msgType = some "snapshot" →
    optionProp (fun d =>
      optionProp allPos (parseLevels (d.b.getD [])) ∧
      optionProp allPos (parseLevels (d.a.getD []))) m.data) ∧
  (m.msgType = some "delta" →
    optionProp (fun d =>
      ∀ pr ∈ d.b.getD [] ++ d.a.getD [],
        optionProp (fun q => 0 ≤ q) (pyFloat? pr.2)) m.data)

instance (depth : ℕ) (m : Message) : Decidable (goodSnapshot depth m) :=
  inferInstanceAs (Decidable (_ → _))

instance (m : Message) : Decidable (posMsg m) :=
  inferInstanceAs (Decidable (_ ∧ _))

/-! ### Concrete inputs used in counterexamples and witnesses -/

/-- A syntactically valid snapshot whose bid payload is unsorted and longer
than depth 2 (the `hasOtherKeys` flag models Bybit's `s`/`u`/`seq` keys). -/
def unsortedSnap : Message :=
  ⟨some "snapshot", some ⟨some [("100", "1"), ("98", "1"), ("99", "1")], some [], true⟩⟩

/-- A snapshot carrying an explicit zero quantity. -/
def zeroQtySnap : Message :=
  ⟨some "snapshot", some ⟨some [("100", "0")], some [], true⟩⟩

/-- The depth-eviction scenario's snapshot: bids 100, 99, 98 at quantity 1. -/
def evictSnap : Message :=
  ⟨some "snapshot", some ⟨some [("100", "1"), ("99", "1"), ("98", "1")], some [], true⟩⟩

/-- Delta adding bid 97. -/
def evictDelta97 : Message :=
  ⟨some "delta", some ⟨some [("97", "1")], some [], true⟩⟩

/-- Delta adding bid 101. -/
def evictDelta101 : Message :=
  ⟨some "delta", some ⟨some [("101", "1")], some [], true⟩⟩

/-- A snapshot whose data object is non-empty but whose two side sequences
are both present and empty. -/
def emptySidesSnap : Message :=
  ⟨some "snapshot", some ⟨some [], some [], false⟩⟩

/-- A delta whose second bid pair has non-numeric price text. -/
def badTokenDelta : Message :=
  ⟨some "delta", some ⟨some [("100", "1"), ("xxx", "2")], some [], true⟩⟩

/-- A delta with one well-formed bid pair. -/
def simpleDelta : Message :=
  ⟨some "delta", some ⟨some [("100", "1")], some [], true⟩⟩

/-- A snapshot whose data omits the `"a"` key and whose `"b"` payload has a
malformed price token. -/
def badOneSidedSnap : Message :=
  ⟨some "snapshot", some ⟨some [("xxx", "1")], none, false⟩⟩

/-- A book holding one bid level, used as a pre-state. -/
def oneBidBook : OrderBook := ⟨[(100, 1)], []⟩

/-- A book holding one ask level, used as a pre-state. -/
def oneAskBook : OrderBook := ⟨[], [(5, 1)]⟩

/-! ### Helper lemmas -/

lemma strictOrd_ne {desc : Bool} {x y : Level} (h : strictOrd desc x y) : x.1 ≠ y.1 := by
  cases desc <;> simp only [strictOrd, if_true, if_false, Bool.false_eq_true, ite_false,
    ite_true] at h
  · exact ne_of_lt h
  · exact ne_of_gt h

lemma sideOrd_def {desc : Bool} {x y : Level} :
    sideOrd desc x y ↔ (if desc then y.1 ≤ x.1 else x.1 ≤ y.1) := Iff.rfl

lemma strictOrd_of_sideOrd_ne {desc : Bool} {x y : Level}
    (h1 : sideOrd desc x y) (h2 : x.1 ≠ y.1) : strictOrd desc x y := by
  cases desc <;>
    simp only [sideOrd, strictOrd, Bool.false_eq_true, ite_false, ite_true] at h1 ⊢
  · exact lt_of_le_of_ne h1 h2
  · exact lt_of_le_of_ne h1 (Ne.symm h2)

lemma sideOrd_of_strictOrd {desc : Bool} {x y : Level} (h : strictOrd desc x y) :
    sideOrd desc x y := by
  cases desc <;>
    simp only [sideOrd, strictOrd, Bool.false_eq_true, ite_false, ite_true] at h ⊢ <;>
    exact le_of_lt h

lemma keysNodup_of_pairwise_strict {desc : Bool} {l : List Level}
    (h : l.Pairwise (strictOrd desc)) : keysNodup l :=
  h.imp strictOrd_ne

lemma sortSide_perm (desc : Bool) (l : List Level) : List.Perm (sortSide desc l) l :=
  List.perm_insertionSort _ l

lemma sortSide_sorted (desc : Bool) (l : List Level) :
    (sortSide desc l).Pairwise (sideOrd desc) :=
  List.sorted_insertionSort _ l

lemma keysNodup_sortSide {desc : Bool} {l : List Level} (h : keysNodup l) :
    keysNodup (sortSide desc l) :=
  ((sortSide_perm desc l).pairwise_iff (fun hxy => Ne.symm hxy)).mpr h

lemma mem_applyUpsert {levels : List Level} {p q : ℚ} {x : Level} :
    x ∈ applyUpsert levels p q → x = (p, q) ∨ x ∈ levels := by
  induction levels with
  | nil =>
    intro hx
    by_cases h0 : 0 < q <;> simp [applyUpsert, h0] at hx
    exact Or.inl hx
  | cons hd tl ih =>
    obtain ⟨p0, q0⟩ := hd
    intro hx
    by_cases hp : p0 = p
    · by_cases hq : q = 0
      · simp only [applyUpsert, hp, hq, if_true, ite_true] at hx
        exact Or.inr (List.mem_cons_of_mem _ hx)
      · simp only [applyUpsert, hp, hq, if_true, if_false, ite_true, ite_false,
          List.mem_cons] at hx
        rcases hx with h1 | h1
        · exact Or.inl h1
        · exact Or.inr (List.mem_cons_of_mem _ h1)
    · simp only [applyUpsert, hp, ite_false, List.mem_cons] at hx
      rcases hx with h1 | h1
      · exact Or.inr (by simp [h1])
      · rcases ih h1 with h2 | h2
        · exact Or.inl h2
        · exact Or.inr (List.mem_cons_of_mem _ h2)

lemma keysNodup_applyUpsert {levels : List Level} {p q : ℚ} :
    keysNodup levels → keysNodup (applyUpsert levels p q) := by
  induction levels with
  | nil =>
    intro _
    by_cases h0 : 0 < q <;> simp [applyUpsert, h0, keysNodup]
  | cons hd tl ih =>
    obtain ⟨p0, q0⟩ := hd
    intro h
    rw [keysNodup, List.pairwise_cons] at h
    obtain ⟨hhead, htail⟩ := h
    by_cases hp : p0 = p
    · by_cases hq : q = 0
      · simpa only [applyUpsert, hp, hq, if_true, ite_true, keysNodup] using htail
      · rw [keysNodup]
        simp only [applyUpsert, hp, hq, if_true, if_false, ite_true, ite_false]
        rw [List.pairwise_cons]
        exact ⟨fun y hy => hp ▸ hhead y hy, htail⟩
    · rw [keysNodup]
      simp only [applyUpsert, hp, ite_false]
      rw [List.pairwise_cons]
      refine ⟨fun y hy => ?_, ih htail⟩
      rcases mem_applyUpsert hy with h1 | h1
      · rw [h1]
        exact fun c => hp c
      · exact hhead y h1

lemma sideInv_updSide (depth : ℕ) (desc : Bool) (levels : List Level) (p q : ℚ)
    (h : keysNodup levels) : sideInv depth desc (updSide depth desc levels p q) := by
  have hn : keysNodup (sortSide desc (applyUpsert levels p q)) :=
    keysNodup_sortSide (keysNodup_applyUpsert h)
  have hs := sortSide_sorted desc (applyUpsert levels p q)
  have hstrict : (sortSide desc (applyUpsert levels p q)).Pairwise (strictOrd desc) :=
    (hs.and hn).imp (fun hh => strictOrd_of_sideOrd_ne hh.1 hh.2)
  constructor
  · simp only [updSide]
    exact List.Pairwise.sublist (List.take_sublist _ _) hstrict
  · simp only [updSide, List.length_take]
    exact Nat.min_le_left _ _

lemma mem_updSide {depth : ℕ} {desc : Bool} {levels : List Level} {p q : ℚ} {x : Level}
    (hx : x ∈ updSide depth desc levels p q) : x = (p, q) ∨ x ∈ levels := by
  simp only [updSide] at hx
  exact mem_applyUpsert ((sortSide_perm desc _).mem_iff.mp (List.mem_of_mem_take hx))

lemma allPos_applyUpsert {levels : List Level} {p q : ℚ} (hq : 0 ≤ q) :
    allPos levels → allPos (applyUpsert levels p q) := by
  induction levels with
  | nil =>
    intro _ x hx
    by_cases h0 : 0 < q <;> simp [applyUpsert, h0] at hx
    rw [hx]
    exact h0
  | cons hd tl ih =>
    obtain ⟨p0, q0⟩ := hd
    intro h
    have hhd : (0 : ℚ) < q0 := h _ (List.mem_cons_self _ _)
    have htl : allPos tl := fun y hy => h y (List.mem_cons_of_mem _ hy)
    intro x hx
    by_cases hp : p0 = p
    · by_cases hq0 : q = 0
      · simp only [applyUpsert, hp, hq0, if_true, ite_true] at hx
        exact htl x hx
      · simp only [applyUpsert, hp, hq0, if_true, if_false, ite_true, ite_false,
          List.mem_cons] at hx
        rcases hx with h1 | h1
        · rw [h1]
          exact lt_of_le_of_ne hq (Ne.symm hq0)
        · exact htl x h1
    · simp only [applyUpsert, hp, ite_false, List.mem_cons] at hx
      rcases hx with h1 | h1
      · rw [h1]
        exact hhd
      · exact ih htl x h1

lemma allPos_updSide {depth : ℕ} {desc : Bool} {levels : List Level} {p q : ℚ}
    (h : allPos levels) (hq : 0 ≤ q) : allPos (updSide depth desc levels p q) := by
  intro x hx
  simp only [updSide] at hx
  exact allPos_applyUpsert hq h x
    ((sortSide_perm desc _).mem_iff.mp (List.mem_of_mem_take hx))

lemma sideInv_applyDeltaPairs (depth : ℕ) (desc : Bool) (prs : List (String × String)) :
    ∀ levels : List Level, sideInv depth desc levels →
      sideInv depth desc (applyDeltaPairs depth desc prs levels).1 := by
  induction prs with
  | nil => exact fun _ h => h
  | cons pr rest ih =>
    obtain ⟨ps, qs⟩ := pr
    intro levels h
    simp only [applyDeltaPairs]
    cases hp : pyFloat? ps with
    | none => exact h
    | some p =>
      cases hq : pyFloat? qs with
      | none => exact h
      | some q =>
        exact ih _ (sideInv_updSide depth desc levels p q
          (keysNodup_of_pairwise_strict h.1))

lemma allPos_applyDeltaPairs (depth : ℕ) (desc : Bool) (prs : List (String × String)) :
    (∀ pr ∈ prs, ∀ q, pyFloat? pr.2 = some q → 0 ≤ q) →
    ∀ levels : List Level, allPos levels →
      allPos (applyDeltaPairs depth desc prs levels).1 := by
  induction prs with
  | nil => exact fun _ _ h => h
  | cons pr rest ih =>
    obtain ⟨ps, qs⟩ := pr
    intro hprs levels h
    simp only [applyDeltaPairs]
    cases hp : pyFloat? ps with
    | none => exact h
    | some p =>
      cases hq : pyFloat? qs with
      | none => exact h
      | some q =>
        exact ih (fun pr hpr => hprs pr (List.mem_cons_of_mem _ hpr)) _
          (allPos_updSide h (hprs (ps, qs) (List.mem_cons_self _ _) q hq))

lemma optionProp_get {α : Type} {P : α → Prop} {o : Option α} {x : α}
    (h : optionProp P o) (ho : o = some x) : P x := by
  rw [ho] at h
  exact h

lemma bookInv_emptyBook (depth : ℕ) : bookInv depth emptyBook :=
  ⟨⟨List.Pairwise.nil, Nat.zero_le _⟩, ⟨List.Pairwise.nil, Nat.zero_le _⟩⟩

lemma bookInv_applyDelta (depth : ℕ) (d : MsgData) (book : OrderBook)
    (h : bookInv depth book) : bookInv depth (applyDelta depth d book).1 := by
  simp only [applyDelta]
  by_cases hok : (applyDeltaPairs depth true (d.b.getD []) book.bids).2
  · simp only [hok, ite_true]
    exact ⟨sideInv_applyDeltaPairs _ _ _ _ h.1, sideInv_applyDeltaPairs _ _ _ _ h.2⟩
  · simp only [hok, ite_false]
    exact ⟨sideInv_applyDeltaPairs _ _ _ _ h.1, h.2⟩

lemma bookInv_handle_message (depth : ℕ) (m : Message) (book : OrderBook)
    (hg : goodSnapshot depth m) (h : bookInv depth book) :
    bookInv depth (handle_message depth m book).1 := by
  cases hd : m.data with
  | none => simpa [handle_message, hd] using h
  | some d =>
    by_cases ht : d.truthy
    · by_cases hsnap : m.msgType = some "snapshot"
      · simp only [handle_message, hd, ht, hsnap, ite_true]
        obtain ⟨hb', ha'⟩ := optionProp_get (hg hsnap) hd
        cases hbp : parseLevels (d.b.getD []) with
        | none => simpa [applySnapshot, hbp] using h
        | some newBids =>
          cases hap : parseLevels (d.a.getD []) with
          | none =>
            simp only [applySnapshot, hbp, hap]
            exact ⟨optionProp_get hb' hbp, h.2⟩
          | some newAsks =>
            simp only [applySnapshot, hbp, hap]
            exact ⟨optionProp_get hb' hbp, optionProp_get ha' hap⟩
      · by_cases hdelta : m.msgType = some "delta"
        · simp only [handle_message, hd, ht, hsnap, hdelta, ite_true, ite_false]
          exact bookInv_applyDelta depth d book h
        · simpa [handle_message, hd, ht, hsnap, hdelta] using h
    · simpa [handle_message, hd, ht] using h

lemma bookInv_applyAll (depth : ℕ) (msgs : List Message) :
    ∀ book, (∀ m ∈ msgs, goodSnapshot depth m) → bookInv depth book →
      bookInv depth (applyAll depth msgs book) := by
  induction msgs with
  | nil => exact fun _ _ h => h
  | cons m rest ih =>
    intro book hg h
    exact ih _ (fun m2 h2 => hg m2 (List.mem_cons_of_mem _ h2))
      (bookInv_handle_message depth m book (hg m (List.mem_cons_self _ _)) h)

lemma bookPos_applyDelta (depth : ℕ) (d : MsgData) (book : OrderBook)
    (hq : ∀ pr ∈ d.b.getD [] ++ d.a.getD [],
      optionProp (fun q => 0 ≤ q) (pyFloat? pr.2))
    (h : bookPos book) : bookPos (applyDelta depth d book).1 := by
  have hb : ∀ pr ∈ d.b.getD [], ∀ q, pyFloat? pr.2 = some q → 0 ≤ q :=
    fun pr hpr q hq2 => optionProp_get (hq pr (List.mem_append_left _ hpr)) hq2
  have ha : ∀ pr ∈ d.a.getD [], ∀ q, pyFloat? pr.2 = some q → 0 ≤ q :=
    fun pr hpr q hq2 => optionProp_get (hq pr (List.mem_append_right _ hpr)) hq2
  simp only [applyDelta]
  by_cases hok : (applyDeltaPairs depth true (d.b.getD []) book.bids).2
  · simp only [hok, ite_true]
    exact ⟨allPos_applyDeltaPairs _ _ _ hb _ h.1, allPos_applyDeltaPairs _ _ _ ha _ h.2⟩
  · simp only [hok, ite_false]
    exact ⟨allPos_applyDeltaPairs _ _ _ hb _ h.1, h.2⟩

lemma bookPos_handle_message (depth : ℕ) (m : Message) (book : OrderBook)
    (hg : posMsg m) (h : bookPos book) : bookPos (handle_message depth m book).1 := by
  cases hd : m.data with
  | none => simpa [handle_message, hd] using h
  | some d =>
    by_cases ht : d.truthy
    · by_cases hsnap : m.msgType = some "snapshot"
      · simp only [handle_message, hd, ht, hsnap, ite_true]
        obtain ⟨hb', ha'⟩ := optionProp_get (hg.1 hsnap) hd
        cases hbp : parseLevels (d.b.getD []) with
        | none => simpa [applySnapshot, hbp] using h
        | some newBids =>
          cases hap : parseLevels (d.a.getD []) with
          | none =>
            simp only [applySnapshot, hbp, hap]
            exact ⟨optionProp_get hb' hbp, h.2⟩
          | some newAsks =>
            simp only [applySnapshot, hbp, hap]
            exact ⟨optionProp_get hb' hbp, optionProp_get ha' hap⟩
      · by_cases hdelta : m.msgType = some "delta"
        · simp only [handle_message, hd, ht, hsnap, hdelta, ite_true, ite_false]
          exact bookPos_applyDelta depth d book (optionProp_get (hg.2 hdelta) hd) h
        · simpa [handle_message, hd, ht, hsnap, hdelta] using h
    · simpa [handle_message, hd, ht] using h

lemma bookPos_applyAll (depth : ℕ) (msgs : List Message) :
    ∀ book, (∀ m ∈ msgs, posMsg m) → bookPos book →
      bookPos (applyAll depth msgs book) := by
  induction msgs with
  | nil => exact fun _ _ h => h
  | cons m rest ih =>
    intro book hg h
    exact ih _ (fun m2 h2 => hg m2 (List.mem_cons_of_mem _ h2))
      (bookPos_handle_message depth m book (hg m (List.mem_cons_self _ _)) h)

/-! ### Claim theorems -/

/-- C1 counterexample: the claim fails as stated. The snapshot branch of
`handle_message` stores the parsed payload verbatim — it neither sorts nor
truncates — so at depth 2 a snapshot whose bids are
`[[100,1],[98,1],[99,1]]` is a reachable state whose bid side has length 3
and is not strictly descending. -/
theorem c1_invariant_counterexample :
    ¬ bookInv 2 (applyAll 2 [unsortedSnap] emptyBook) := by decide

/-- C1 (amended): provided every snapshot message's parsed payload is
already strictly sorted in each side's direction, duplicate-free and at
most `depth` long (which the exchange feed guarantees and the code silently
relies on), every state reachable from the fresh book by any sequence of
snapshot and delta messages has strictly descending bids, strictly
ascending asks, no duplicate price within a side, and at most `depth`
levels per side. -/
theorem c1_invariants_hold (depth : ℕ) (msgs : List Message)
    (hg : ∀ m ∈ msgs, goodSnapshot depth m) :
    bookInv depth (applyAll depth msgs emptyBook) :=
  bookInv_applyAll depth msgs emptyBook hg (bookInv_emptyBook depth)

/-- C1 witness: the amended invariant theorem applied to a concrete run at
depth 3 — a well-formed three-level snapshot followed by a delta. -/
theorem c1_invariants_hold_witness :
    (∀ m ∈ [evictSnap, evictDelta101], goodSnapshot 3 m) ∧
      bookInv 3 (applyAll 3 [evictSnap, evictDelta101] emptyBook) :=
  ⟨by decide, c1_invariants_hold 3 [evictSnap, evictDelta101] (by decide)⟩

/-- C2 counterexample: the claim fails as stated. The snapshot branch does
not filter zero quantities, so a snapshot whose bid payload is
`[["100","0"]]` yields a reachable state storing the level (100, 0). -/
theorem c2_positive_counterexample :
    ¬ bookPos (applyAll 50 [zeroQtySnap] emptyBook) := by decide

/-- C2 (amended): provided every snapshot level parses to a strictly
positive quantity and every delta pair parses to a non-negative quantity
(which the feed guarantees: a deletion is exactly quantity 0), every level
present in either side of any reachable state has strictly positive
quantity — delta updates with quantity 0 remove levels and never store
them. -/
theorem c2_positive_quantities (depth : ℕ) (msgs : List Message)
    (hg : ∀ m ∈ msgs, posMsg m) :
    bookPos (applyAll depth msgs emptyBook) :=
  bookPos_applyAll depth msgs emptyBook hg
    ⟨fun x hx => absurd hx (List.not_mem_nil x),
     fun x hx => absurd hx (List.not_mem_nil x)⟩

/-- C2 witness: the amended positivity theorem at depth 2 on a concrete
snapshot-then-delta run. -/
theorem c2_positive_quantities_witness :
    (∀ m ∈ [evictSnap, evictDelta97], posMsg m) ∧
      bookPos (applyAll 2 [evictSnap, evictDelta97] emptyBook) :=
  ⟨by decide, c2_positive_quantities 2 [evictSnap, evictDelta97] (by decide)⟩

lemma applyUpsert_zero_eq_filter {levels : List Level} {p : ℚ} :
    keysNodup levels →
      applyUpsert levels p 0 = levels.filter (fun x => decide (x.1 ≠ p)) := by
  induction levels with
  | nil => intro _; simp [applyUpsert]
  | cons hd tl ih =>
    obtain ⟨p0, q0⟩ := hd
    intro h
    rw [keysNodup, List.pairwise_cons] at h
    obtain ⟨hhead, htail⟩ := h
    by_cases hp : p0 = p
    · subst hp
      simp only [applyUpsert, if_true]
      rw [List.filter_cons]
      have hf : (decide ((p0, q0).1 ≠ p0)) = false := by simp
      rw [hf]
      simp only [Bool.false_eq_true, ite_false]
      exact (List.filter_eq_self.mpr
        (fun a ha => by simpa using Ne.symm (hhead a ha))).symm
    · simp only [applyUpsert]
      rw [if_neg hp, ih htail, List.filter_cons]
      have hf : (decide ((p0, q0).1 ≠ p)) = true := by simpa using hp
      rw [hf]
      simp

lemma sortSide_eq_of_sorted {desc : Bool} {l : List Level}
    (h : l.Pairwise (strictOrd desc)) : sortSide desc l = l := by
  simp only [sortSide]
  exact List.Sorted.insertionSort_eq (h.imp sideOrd_of_strictOrd)

lemma updSide_zero_eq_filter (depth : ℕ) (desc : Bool) (levels : List Level) (p : ℚ)
    (h : sideInv depth desc levels) :
    updSide depth desc levels p 0 = levels.filter (fun x => decide (x.1 ≠ p)) := by
  have hnd : keysNodup levels := keysNodup_of_pairwise_strict h.1
  have hfil : (levels.filter (fun x => decide (x.1 ≠ p))).Pairwise (strictOrd desc) :=
    h.1.filter _
  simp only [updSide, applyUpsert_zero_eq_filter hnd, sortSide_eq_of_sorted hfil]
  exact List.take_of_length_le (le_trans (List.length_filter_le _ _) h.2)

/-- C3: on a side satisfying the invariant, a delta update with quantity 0
removes exactly the levels carrying that price (by uniqueness, the one such
level when present): the result is the side filtered to the other prices;
and when no level carries that price the side is returned unchanged (the
re-sort and the truncation are identities on an already-sorted side of
length at most depth). -/
theorem c3_zero_quantity_deletion (depth : ℕ) (desc : Bool) (levels : List Level)
    (p : ℚ) (h : sideInv depth desc levels) :
    updSide depth desc levels p 0 = levels.filter (fun x => decide (x.1 ≠ p)) ∧
    ((∀ x ∈ levels, x.1 ≠ p) → updSide depth desc levels p 0 = levels) := by
  refine ⟨updSide_zero_eq_filter depth desc levels p h, fun habs => ?_⟩
  rw [updSide_zero_eq_filter depth desc levels p h]
  exact List.filter_eq_self.mpr (fun a ha => by simpa using habs a ha)

/-- C3 witness: at depth 50 on the sorted bid side [(100,1),(99,2)],
deleting at present price 99 removes that level; deleting at absent price
98 is a no-op. -/
theorem c3_zero_quantity_deletion_witness :
    sideInv 50 true [((100 : ℚ), (1 : ℚ)), (99, 2)] ∧
      updSide 50 true [((100 : ℚ), (1 : ℚ)), (99, 2)] 99 0 = [(100, 1)] ∧
      updSide 50 true [((100 : ℚ), (1 : ℚ)), (99, 2)] 98 0 = [(100, 1), (99, 2)] := by
  refine ⟨by decide, ?_, ?_⟩
  · rw [(c3_zero_quantity_deletion 50 true _ 99 (by decide)).1]
    decide
  · exact (c3_zero_quantity_deletion 50 true _ 98 (by decide)).2 (by decide)

/-- C4: on an empty bid side, a delta (100, 2) followed by a delta (100, 3)
yields exactly the one level (100, 3): the second update replaces the
quantity of the existing level in place instead of inserting a second
level (for any positive depth). -/
theorem c4_upsert_replace (depth : ℕ) (h : 1 ≤ depth) :
    updSide depth true (updSide depth true [] 100 2) 100 3 = [(100, 3)] := by
  have h1 : applyUpsert [] 100 2 = [((100 : ℚ), (2 : ℚ))] := by
    norm_num [applyUpsert]
  have hs1 : updSide depth true [] 100 2 = [((100 : ℚ), (2 : ℚ))] := by
    simp only [updSide, h1]
    rw [show sortSide true [((100 : ℚ), (2 : ℚ))] = [((100 : ℚ), (2 : ℚ))] from rfl]
    exact List.take_of_length_le (by simpa using h)
  have h2 : applyUpsert [((100 : ℚ), (2 : ℚ))] 100 3 = [((100 : ℚ), (3 : ℚ))] := by
    norm_num [applyUpsert]
  rw [hs1]
  simp only [updSide, h2]
  rw [show sortSide true [((100 : ℚ), (3 : ℚ))] = [((100 : ℚ), (3 : ℚ))] from rfl]
  exact List.take_of_length_le (by simpa using h)

/-- C4 witness: the upsert-replace theorem at the default depth 50. -/
theorem c4_upsert_replace_witness :
    1 ≤ 50 ∧ updSide 50 true (updSide 50 true [] 100 2) 100 3 = [(100, 3)] :=
  ⟨by decide, c4_upsert_replace 50 (by decide)⟩

lemma applySnapshot_fst_idem (d : MsgData) (book : OrderBook) :
    (applySnapshot d (applySnapshot d book).1).1 = (applySnapshot d book).1 := by
  cases hb : parseLevels (d.b.getD []) with
  | none => simp [applySnapshot, hb]
  | some newBids =>
    cases ha : parseLevels (d.a.getD []) with
    | none => simp [applySnapshot, hb, ha]
    | some newAsks => simp [applySnapshot, hb, ha]

/-- C5: applying the same snapshot message twice in a row yields the same
book state as applying it once, from any starting state: each successfully
parsed side is overwritten with a value that depends only on the message,
and the failure pattern of the parse is the same on both applications. -/
theorem c5_snapshot_idempotent (depth : ℕ) (msg : Message) (book : OrderBook)
    (h : msg.msgType = some "snapshot") :
    (handle_message depth msg (handle_message depth msg book).1).1 =
      (handle_message depth msg book).1 := by
  cases hd : msg.data with
  | none => simp [handle_message, hd]
  | some d =>
    by_cases ht : d.truthy
    · simp only [handle_message, hd, ht, h, ite_true]
      exact applySnapshot_fst_idem d book
    · simp [handle_message, hd, ht]

/-- C5 witness: idempotence of a concrete three-level snapshot at depth 2
on the fresh book. -/
theorem c5_snapshot_idempotent_witness :
    evictSnap.msgType = some "snapshot" ∧
      (handle_message 2 evictSnap (handle_message 2 evictSnap emptyBook).1).1 =
        (handle_message 2 evictSnap emptyBook).1 :=
  ⟨rfl, c5_snapshot_idempotent 2 evictSnap emptyBook rfl⟩

/-- C6 counterexample: the claim fails at its first step — after the
depth-2 snapshot with bids [[100,1],[99,1],[98,1]], the retained bids are
not [[100,1],[99,1]]: the snapshot branch performs no truncation, so the
98 level is still stored. -/
theorem c6_depth_eviction_counterexample :
    (applyAll 2 [evictSnap] emptyBook).bids ≠ [((100 : ℚ), (1 : ℚ)), (99, 1)] := by
  decide

/-- C6 (amended): with depth 2, the snapshot stores all three bid levels
untruncated; truncation to depth happens at the next delta touching the
side. A subsequent delta (97,1) does not appear in the read — the read
shows [[100,1],[99,1]] (97 sorts below the retained set; 98 is evicted at
that point too) — while a subsequent delta (101,1) does appear and evicts
99 (and 98): the read shows [[101,1],[100,1]]. -/
theorem c6_depth_eviction_scenario :
    (applyAll 2 [evictSnap] emptyBook).bids = [((100 : ℚ), (1 : ℚ)), (99, 1), (98, 1)] ∧
    (get_order_book (applyAll 2 [evictSnap, evictDelta97] emptyBook)).1 =
      [((100 : ℚ), (1 : ℚ)), (99, 1)] ∧
    (get_order_book (applyAll 2 [evictSnap, evictDelta101] emptyBook)).1 =
      [((101 : ℚ), (1 : ℚ)), (100, 1)] := by
  refine ⟨by decide, by decide, by decide⟩

/-- C7 counterexample: a snapshot message whose data object contains both
side keys with explicitly empty sequences carries no side-update data, yet
it is not treated as an empty message: `if not data` sees a non-empty
dict, the snapshot branch runs, and it clears a non-empty book — a
mutation — with no EmptyMessage warning. -/
theorem c7_empty_message_counterexample :
    (handle_message 50 emptySidesSnap oneBidBook).1 ≠ oneBidBook ∧
    (handle_message 50 emptySidesSnap oneBidBook).2 ≠ HandleOutcome.emptyData := by
  decide

/-- C7 (amended): the empty-message guard fires exactly on a falsy `data`
dict (key missing, or an object with no keys): such messages mutate
nothing, are reported as the EmptyMessage warning, and leave the state for
subsequent messages untouched. A message whose data object is non-empty
but carries explicitly empty side sequences is dispatched normally
instead: an empty delta leaves the book unchanged with success, while an
empty snapshot clears both sides. -/
theorem c7_empty_data_no_op (depth : ℕ) (msg : Message) (book : OrderBook) :
    ((msg.data = none ∨ ∃ d, msg.data = some d ∧ d.truthy = false) →
      handle_message depth msg book = (book, HandleOutcome.emptyData)) ∧
    (∀ d, msg.data = some d → d.truthy = true → d.b = some [] → d.a = some [] →
      (msg.msgType = some "delta" →
        handle_message depth msg book = (book, HandleOutcome.ok)) ∧
      (msg.msgType = some "snapshot" →
        handle_message depth msg book = (⟨[], []⟩, HandleOutcome.ok))) := by
  constructor
  · rintro (hd | ⟨d, hd, ht⟩)
    · simp [handle_message, hd]
    · simp [handle_message, hd, ht]
  · rintro d hd ht hb ha
    constructor
    · intro hty
      simp [handle_message, hd, ht, hty, applyDelta, hb, ha, applyDeltaPairs]
    · intro hty
      simp [handle_message, hd, ht, hty, applySnapshot, hb, ha, parseLevels]

/-- C7 witness: the amended theorem applied to a delta with a missing data
key (EmptyMessage no-op) and to a delta with present-but-empty side
sequences (dispatched as a successful no-op, not EmptyMessage). -/
theorem c7_empty_data_no_op_witness :
    handle_message 50 (⟨some "delta", none⟩ : Message) oneBidBook =
      (oneBidBook, HandleOutcome.emptyData) ∧
    handle_message 50 (⟨some "delta", some ⟨some [], some [], false⟩⟩ : Message)
        oneBidBook = (oneBidBook, HandleOutcome.ok) :=
  ⟨(c7_empty_data_no_op 50 ⟨some "delta", none⟩ oneBidBook).1 (Or.inl rfl),
   ((c7_empty_data_no_op 50 ⟨some "delta", some ⟨some [], some [], false⟩⟩
      oneBidBook).2 _ rfl rfl rfl rfl).1 rfl⟩

/-- C8 counterexample: the claim that no pair of a malformed message takes
effect fails. `_update_order_book` parses and applies one pair at a time,
so for the delta whose bid pairs are [("100","1"),("xxx","2")] the first
pair is applied before the ValueError on "xxx": from the empty book the
resulting state holds bid (100,1) although the message errored. -/
theorem c8_parse_error_counterexample :
    (handle_message 50 badTokenDelta emptyBook).1 ≠ emptyBook ∧
    (handle_message 50 badTokenDelta emptyBook).2 = HandleOutcome.parseError := by
  decide

lemma applyDeltaPairs_append (depth : ℕ) (desc : Bool)
    (l1 l2 : List (String × String)) :
    ∀ levels, applyDeltaPairs depth desc (l1 ++ l2) levels =
      (if (applyDeltaPairs depth desc l1 levels).2 then
        applyDeltaPairs depth desc l2 (applyDeltaPairs depth desc l1 levels).1
      else applyDeltaPairs depth desc l1 levels) := by
  induction l1 with
  | nil => intro levels; simp [applyDeltaPairs]
  | cons pr rest ih =>
    intro levels
    obtain ⟨ps, qs⟩ := pr
    simp only [List.cons_append, applyDeltaPairs]
    cases hp : pyFloat? ps with
    | none => simp
    | some p =>
      cases hq : pyFloat? qs with
      | none => simp
      | some q => exact ih _

/-- C8 (amended): a malformed price token in a delta's bid list aborts the
remainder of the current message — the pairs after it and the entire ask
side are not applied — and the call surfaces the parse error; but the bid
pairs parsed before the malformed token ARE applied, so the book is left
with those updates (not wholly untouched), and the next message is simply
processed from that state. -/
theorem c8_parse_error_partial (depth : ℕ) (book : OrderBook)
    (good rest : List (String × String)) (bp bq : String) (d : MsgData)
    (bids2 : List Level)
    (hb : d.b = some (good ++ (bp, bq) :: rest))
    (hbad : pyFloat? bp = none)
    (hgood : applyDeltaPairs depth true good book.bids = (bids2, true)) :
    handle_message depth ⟨some "delta", some d⟩ book =
      ({ bids := bids2, asks := book.asks }, HandleOutcome.parseError) := by
  have ht : d.truthy = true := by simp [MsgData.truthy, hb]
  have hrun : applyDeltaPairs depth true (d.b.getD [])  book.bids = (bids2, false) := by
    rw [hb]
    show applyDeltaPairs depth true (good ++ (bp, bq) :: rest) book.bids = (bids2, false)
    rw [applyDeltaPairs_append, hgood]
    simp [applyDeltaPairs, hbad]
  simp [handle_message, ht, applyDelta, hrun]

/-- C8 witness: the partial-application theorem instantiated on the
concrete malformed delta [("100","1"),("xxx","2")] from the empty book. -/
theorem c8_parse_error_partial_witness :
    handle_message 50 badTokenDelta emptyBook =
      ({ bids := [(100, 1)], asks := [] }, HandleOutcome.parseError) :=
  c8_parse_error_partial 50 emptyBook [("100", "1")] [] "xxx" "2"
    ⟨some [("100", "1"), ("xxx", "2")], some [], true⟩ [(100, 1)] rfl
    (by decide) (by decide)

/-- C9 (code bug): `handle_message` holds the non-reentrant
`threading.Lock` around its dispatch and, for a delta message with truthy
data, the dispatched `_update_order_book` opens its own `with self.lock`
on the same lock: the attempted lock-operation sequence re-acquires a
lock the thread already holds, so the call blocks forever instead of
completing one critical section as the claim describes. -/
theorem c9_delta_self_deadlock (msg : Message) (d : MsgData)
    (hty : msg.msgType = some "delta") (hd : msg.data = some d)
    (ht : d.truthy = true) :
    selfDeadlocks (handleMessageLockTrace msg) = true := by
  simp [handleMessageLockTrace, hd, ht, hty, selfDeadlocks, deadlocksFrom]

/-- C9 witness: the deadlock theorem at a concrete one-pair delta. -/
theorem c9_delta_self_deadlock_witness :
    simpleDelta.msgType = some "delta" ∧
      selfDeadlocks (handleMessageLockTrace simpleDelta) = true :=
  ⟨rfl, c9_delta_self_deadlock simpleDelta ⟨some [("100", "1")], some [], true⟩
    rfl rfl rfl⟩

/-- C10 counterexample: a snapshot whose non-empty data omits the `"a"`
key does not always clear the ask side: when the present `"b"` payload
fails to parse, the ValueError aborts the call before the ask assignment,
so previously stored asks survive. -/
theorem c10_one_sided_counterexample :
    (handle_message 50 badOneSidedSnap oneAskBook).1.asks = [((5 : ℚ), (1 : ℚ))] ∧
    (handle_message 50 badOneSidedSnap oneAskBook).1.asks ≠ [] := by
  decide

/-- C10 (amended): for a snapshot message with truthy data, a missing
`"b"` key always resets the bid side to the empty list (the defaulted
empty payload parses before anything can fail), and a missing `"a"` key
resets the ask side to the empty list provided the `"b"` payload parses
successfully. -/
theorem c10_one_sided_snapshot (depth : ℕ) (book : OrderBook) (d : MsgData)
    (ht : d.truthy = true) :
    (d.b = none →
      (handle_message depth ⟨some "snapshot", some d⟩ book).1.bids = []) ∧
    (d.a = none → ∀ bs, parseLevels (d.b.getD []) = some bs →
      (handle_message depth ⟨some "snapshot", some d⟩ book).1.asks = []) := by
  constructor
  · intro hbnone
    simp only [handle_message, ht, ite_true, applySnapshot, hbnone, Option.getD_none,
      parseLevels]
    cases hap : parseLevels (d.a.getD []) <;> simp [hap]
  · intro hanone bs hbs
    simp [handle_message, ht, applySnapshot, hbs, hanone, parseLevels]

/-- C10 witness: a snapshot omitting the bid key clears stored bids, and a
snapshot omitting the ask key with a well-formed bid payload clears stored
asks. -/
theorem c10_one_sided_snapshot_witness :
    (handle_message 50 (⟨some "snapshot", some ⟨none, some [("7", "1")], false⟩⟩ :
        Message) oneBidBook).1.bids = [] ∧
    (handle_message 50 (⟨some "snapshot", some ⟨some [("7", "1")], none, false⟩⟩ :
        Message) oneAskBook).1.asks = [] :=
  ⟨(c10_one_sided_snapshot 50 oneBidBook ⟨none, some [("7", "1")], false⟩ rfl).1 rfl,
   (c10_one_sided_snapshot 50 oneAskBook ⟨some [("7", "1")], none, false⟩ rfl).2 rfl
     [(7, 1)] (by decide)⟩

end OB
